import Mathlib

/-!
# Verification of the chat-p2p causal synchronization engine and discovery backend

Shallow embedding of the repository's `MessageSync` class (vector-clock causal
delivery, conflict detection/resolution, gossip catch-up), of the backend
`PeerRegistryManager` / `DiscoveryService` handlers, and of the WebRTC client
`sendMessage`, together with theorems settling the specification claims.

JavaScript `Map`s are modelled as insertion-ordered association lists, plain
objects used as string-keyed records as association lists of pairs, and the
engine's own vector clock (which is only ever read through `clock[p] || 0`)
as a total function `String → Nat`.  Callback invocations (`onMessageReady`,
`onConflictResolved`) are modelled as ghost output logs threaded through the
state.
-/

namespace ChatP2P

/-- A synchronized chat message (`SyncMessage` in the source): a `ChatMessage`
extended with a vector-clock snapshot and a causal-dependency id list.
The `vectorClock` field is the JS object carried by the wire message, hence a
finite association list. -/
structure SyncMessage where
  id : String
  «from» : String
  room : String
  content : String
  timestamp : Int
  vectorClock : List (String × Nat)
  causality : List String
  deriving DecidableEq, Repr

/-- Look a peer id up in a message's vector-clock object, with the JS
`clock[p] || 0` default. -/
def clockEntry (clock : List (String × Nat)) (p : String) : Nat :=
  match clock.lookup p with
  | some v => v
  | none => 0

/-- State of one `MessageSync` engine, plus ghost logs of the callbacks it
fired: `delivered` records the `onMessageReady` invocations in order, and
`resolvedLog` the `onConflictResolved` invocations (each a resolved batch). -/
structure Engine where
  vectorClock : String → Nat
  messageHistory : List SyncMessage
  pendingMessages : List SyncMessage
  delivered : List SyncMessage
  resolvedLog : List (List SyncMessage)

/-- The engine constructed by `new MessageSync(peerId)`: the constructor sets
`vectorClock[peerId] = 0`, which reads identically to the all-absent clock
under the `|| 0` convention. -/
def Engine.init (_peerId : String) : Engine :=
  { vectorClock := fun _ => 0
    messageHistory := []
    pendingMessages := []
    delivered := []
    resolvedLog := [] }

/-- `Map.has(id)` on a message map modelled as a list. -/
def hasId (msgs : List SyncMessage) (i : String) : Bool :=
  msgs.any fun m => m.id = i

/-- `Map.set(m.id, m)`: replace the entry already keyed by `m.id` in place,
otherwise append at the end (JS `Map` insertion order). -/
def mapSet (msgs : List SyncMessage) (m : SyncMessage) : List SyncMessage :=
  match msgs with
  | [] => [m]
  | x :: rest => if x.id = m.id then m :: rest else x :: mapSet rest m

/-- `MessageSync.canProcessMessage`: every causal dependency is already in
history, the sender's carried clock entry is exactly our counter plus one, and
every other carried entry is at most our counter.  Only entries present in the
message's clock object are checked, exactly as `Object.entries` iterates. -/
def canProcessMessage (s : Engine) (m : SyncMessage) : Bool :=
  (m.causality.all fun causalId => hasId s.messageHistory causalId) &&
  (m.vectorClock.all fun e =>
    if e.1 = m.«from» then e.2 = s.vectorClock e.1 + 1
    else e.2 ≤ s.vectorClock e.1)

/-- `MessageSync.updateVectorClock`: per-entry max merge of the received clock
object into our clock, peers absent from the received clock untouched. -/
def updateVectorClock (clock : String → Nat) (receivedClock : List (String × Nat)) :
    String → Nat :=
  receivedClock.foldl (fun acc e => fun q => if q = e.1 then max (acc q) e.2 else acc q) clock

/-- The first-inserted entry among those of minimal timestamp (what
`sort by timestamp` followed by taking index 0 selects, JS sort being stable). -/
def oldestEntry (m : SyncMessage) (rest : List SyncMessage) : SyncMessage :=
  rest.foldl (fun acc x => if x.timestamp < acc.timestamp then x else acc) m

/-- `MessageSync.addToHistory`: insert keyed by id, then if the map exceeds
`maxHistorySize = 1000` entries evict the oldest-by-timestamp entry. -/
def addToHistory (h : List SyncMessage) (m : SyncMessage) : List SyncMessage :=
  let h2 := mapSet h m
  if 1000 < h2.length then
    match h2 with
    | [] => []
    | x :: rest => h2.filter fun y => y.id ≠ (oldestEntry x rest).id
  else h2

/-- `MessageSync.isCausallyRelated`: one message's id occurs in the other's
dependency list. -/
def isCausallyRelated (m1 m2 : SyncMessage) : Bool :=
  m1.causality.contains m2.id || m2.causality.contains m1.id

/-- `MessageSync.detectConflicts`: the history messages concurrent with `m` —
different id, timestamps within the 1000 ms window, different author, same
room, and not causally related. -/
def detectConflicts (h : List SyncMessage) (m : SyncMessage) : List SyncMessage :=
  h.filter fun hm =>
    hm.id ≠ m.id &&
    (hm.timestamp - m.timestamp).natAbs < 1000 &&
    hm.«from» ≠ m.«from» &&
    hm.room = m.room &&
    !isCausallyRelated m hm

/-- The comparator of `MessageSync.resolveConflicts`: message ids compared in
the lexicographic string order (the source's `localeCompare` modelled as a
fixed total order on id strings). -/
def idLe (a b : SyncMessage) : Prop :=
  a.id ≤ b.id

instance : DecidableRel idLe :=
  fun a b => inferInstanceAs (Decidable (a.id ≤ b.id))

instance : IsTotal SyncMessage idLe :=
  ⟨fun a b => le_total a.id b.id⟩

instance : IsTrans SyncMessage idLe :=
  ⟨fun _ _ _ h1 h2 => le_trans h1 h2⟩

/-- `MessageSync.resolveConflicts`: deterministic ordering of a concurrent
batch by id comparison (JS sort is stable, as is insertion sort). -/
def resolveConflicts (conflictingMessages : List SyncMessage) : List SyncMessage :=
  conflictingMessages.insertionSort idLe

/-- `MessageSync.processMessage`: merge the clock, add to history, detect and
resolve conflicts, emit the message as delivered. -/
def processMessage (s : Engine) (m : SyncMessage) : Engine :=
  let clock2 := updateVectorClock s.vectorClock m.vectorClock
  let history2 := addToHistory s.messageHistory m
  let conflicts := detectConflicts history2 m
  { vectorClock := clock2
    messageHistory := history2
    pendingMessages := s.pendingMessages
    delivered := s.delivered ++ [m]
    resolvedLog :=
      if conflicts.isEmpty then s.resolvedLog
      else s.resolvedLog ++ [resolveConflicts (m :: conflicts)] }

/-- The loop body of `MessageSync.processPendingMessages`: scan the snapshot of
the pending map in insertion order, processing each entry that is currently
deliverable (the threaded state makes deliveries visible to later entries of
the same scan) and collecting the processed ids. -/
def processPendingLoop (s : Engine) (snapshot : List SyncMessage)
    (processed : List String) : Engine × List String :=
  match snapshot with
  | [] => (s, processed)
  | m :: rest =>
    if canProcessMessage s m then
      processPendingLoop (processMessage s m) rest (processed ++ [m.id])
    else
      processPendingLoop s rest processed

/-- `MessageSync.processPendingMessages`: one scan over the pending entries,
then deletion of the processed ids from the pending map. -/
def processPendingMessages (s : Engine) : Engine :=
  let r := processPendingLoop s s.pendingMessages []
  { r.1 with pendingMessages := r.1.pendingMessages.filter fun m => !r.2.contains m.id }

/-- The dedup-and-branch part of `MessageSync.receiveMessage`, before the
pending scan: drop a message already in history, process a deliverable one,
buffer the rest. -/
def receiveStep (s : Engine) (m : SyncMessage) : Engine :=
  if canProcessMessage s m then processMessage s m
  else { s with pendingMessages := mapSet s.pendingMessages m }

/-- `MessageSync.receiveMessage`: return early on a duplicate id, otherwise
process or buffer the message and run one pending scan. -/
def receiveMessage (s : Engine) (m : SyncMessage) : Engine :=
  if hasId s.messageHistory m.id then s
  else processPendingMessages (receiveStep s m)

/-- Feed a list of messages to `receiveMessage` in order. -/
def feed (s : Engine) (msgs : List SyncMessage) : Engine :=
  msgs.foldl receiveMessage s

/-- The per-entry test of `MessageSync.handleSyncRequest`: the message's own
clock value for its author (absent read as 0) strictly exceeds the requester's
recorded counter for that author (absent read as 0). -/
def wantsMessage (peerClock : List (String × Nat)) (m : SyncMessage) : Bool :=
  clockEntry peerClock m.«from» < clockEntry m.vectorClock m.«from»

/-- `MessageSync.handleSyncRequest`: the history entries the requester is
missing according to `wantsMessage`, capped at 100 entries per call. -/
def handleSyncRequest (peerClock : List (String × Nat)) (h : List SyncMessage) :
    List SyncMessage :=
  (h.filter (wantsMessage peerClock)).take 100

/-! ## Backend: `PeerRegistryManager` and the `DiscoveryService` handlers

JS `Map`s become insertion-ordered association lists and `Set<string>` an
insertion-ordered duplicate-free string list.  The `RoomInfo` bookkeeping
(name, createdAt, isPrivate, and the `info.peers` array that mirrors the
member set) carries no independent state and is elided. -/

/-- A registered peer record (`Peer` in `shared/types`), with its bound
socket id. -/
structure Peer where
  id : String
  socketId : String
  ip : String
  rooms : List String
  lastSeen : Int
  nickname : String
  publicKey : String
  deriving DecidableEq, Repr

/-- `Map.set(k, v)` on an association list: replace in place or append. -/
def assocSet {β : Type} (l : List (String × β)) (k : String) (v : β) :
    List (String × β) :=
  match l with
  | [] => [(k, v)]
  | e :: rest => if e.1 = k then (k, v) :: rest else e :: assocSet rest k v

/-- `Map.delete(k)` on an association list. -/
def assocDelete {β : Type} (l : List (String × β)) (k : String) : List (String × β) :=
  l.filter fun e => e.1 ≠ k

/-- `Set.add(x)` on an insertion-ordered member list. -/
def addIfAbsent (l : List String) (x : String) : List String :=
  if l.contains x then l else l ++ [x]

/-- The mutable state of one `PeerRegistryManager`. -/
structure Registry where
  peers : List (String × Peer)
  rooms : List (String × List String)
  socketToPeer : List (String × String)
  deriving DecidableEq, Repr

/-- The empty registry. -/
def Registry.empty : Registry := ⟨[], [], []⟩

/-- `PeerRegistryManager.getPeer`. -/
def getPeer (r : Registry) (peerId : String) : Option Peer :=
  r.peers.lookup peerId

/-- `PeerRegistryManager.getPeerBySocket`. -/
def getPeerBySocket (r : Registry) (socketId : String) : Option Peer :=
  match r.socketToPeer.lookup socketId with
  | some peerId => getPeer r peerId
  | none => none

/-- `PeerRegistryManager.addPeerToRoom`: auto-create the room when absent,
then add the peer id to its member set. -/
def addPeerToRoom (r : Registry) (peerId roomId : String) : Registry :=
  let r1 :=
    if (r.rooms.lookup roomId).isSome then r
    else { r with rooms := assocSet r.rooms roomId [] }
  match r1.rooms.lookup roomId with
  | some members => { r1 with rooms := assocSet r1.rooms roomId (addIfAbsent members peerId) }
  | none => r1

/-- `roomId.startsWith("temp_")`, computed on the character list so that it
evaluates by `decide`. -/
def isTransientRoom (roomId : String) : Bool :=
  roomId.toList.take 5 = "temp_".toList

/-- `PeerRegistryManager.removePeerFromRoom`: delete the peer id from the
member set, dropping the room itself when it becomes empty and its id marks
it transient (`temp_` prefix). -/
def removePeerFromRoom (r : Registry) (peerId roomId : String) : Registry :=
  match r.rooms.lookup roomId with
  | none => r
  | some members =>
    let members2 := members.filter fun x => x ≠ peerId
    if members2.isEmpty && isTransientRoom roomId then
      { r with rooms := assocDelete r.rooms roomId }
    else
      { r with rooms := assocSet r.rooms roomId members2 }

/-- `PeerRegistryManager.unregisterPeer`: remove the peer from the rooms
recorded in its own `rooms` field, then drop the socket mapping and the peer
record.  (Heartbeat-timer cancellation has no registry-state effect.) -/
def unregisterPeer (r : Registry) (peerId : String) : Registry :=
  match r.peers.lookup peerId with
  | none => r
  | some p =>
    let r1 := p.rooms.foldl (fun acc roomId => removePeerFromRoom acc peerId roomId) r
    { r1 with
      socketToPeer := assocDelete r1.socketToPeer p.socketId
      peers := assocDelete r1.peers peerId }

/-- `PeerRegistryManager.unregisterBySocket`. -/
def unregisterBySocket (r : Registry) (socketId : String) : Registry :=
  match r.socketToPeer.lookup socketId with
  | some peerId => unregisterPeer r peerId
  | none => r

/-- `PeerRegistryManager.registerPeer`: clear any prior registration bound to
the same socket, record the peer and socket mapping, then join the rooms
listed in the peer record. -/
def registerPeer (r : Registry) (p : Peer) : Registry :=
  let r1 := unregisterBySocket r p.socketId
  let r2 := { r1 with
    peers := assocSet r1.peers p.id p
    socketToPeer := assocSet r1.socketToPeer p.socketId p.id }
  p.rooms.foldl (fun acc roomId => addPeerToRoom acc p.id roomId) r2

/-- `PeerRegistryManager.updateHeartbeat`: refresh `lastSeen` only. -/
def updateHeartbeat (r : Registry) (peerId : String) (now : Int) : Registry :=
  match r.peers.lookup peerId with
  | none => r
  | some p => { r with peers := assocSet r.peers peerId { p with lastSeen := now } }

/-- The member-id set of a room (empty when the room is absent). -/
def roomMembers (r : Registry) (roomId : String) : List String :=
  (r.rooms.lookup roomId).getD []

/-- `PeerRegistryManager.getPeersInRoom`: resolve the member ids to the
registered peer records, skipping ids with no record. -/
def getPeersInRoom (r : Registry) (roomId : String) : List Peer :=
  (roomMembers r roomId).filterMap (getPeer r)

/-- The `join_room` socket handler: resolve the caller by socket and add it
to the room's member set.  The stored peer record's own `rooms` field is not
updated — exactly as in the source. -/
def joinRoom (r : Registry) (socketId roomId : String) : Registry :=
  match getPeerBySocket r socketId with
  | some p => addPeerToRoom r p.id roomId
  | none => r

/-- The `leave_room` socket handler. -/
def leaveRoom (r : Registry) (socketId roomId : String) : Registry :=
  match getPeerBySocket r socketId with
  | some p => removePeerFromRoom r p.id roomId
  | none => r

/-- The `peer_discover` socket handler: emit `peer_list` with the room's
resolved member snapshot.  The handler never consults the caller's identity. -/
def peerDiscover (r : Registry) (roomId : String) : List Peer :=
  getPeersInRoom r roomId

/-- A WebRTC signaling envelope. -/
structure WebRTCSignal where
  «from» : String
  «to» : String
  type : String
  data : String
  timestamp : Int
  deriving DecidableEq, Repr

/-- The `webrtc_signal` socket handler: when the addressed peer is
registered, emit to its bound socket the signal with `timestamp` replaced by
the relay's current time; otherwise emit nothing.  The registry is returned
unchanged in both cases. -/
def webrtcSignal (r : Registry) (sig : WebRTCSignal) (now : Int) :
    Registry × Option (String × WebRTCSignal) :=
  match getPeer r sig.«to» with
  | some target => (r, some (target.socketId, { sig with timestamp := now }))
  | none => (r, none)

/-! ## Frontend: `WebRTCClient.sendMessage` -/

/-- A data channel as `sendMessage` observes it: its `readyState` string, and
a flag saying whether handing it a payload succeeds (false models a throwing
`send`/serialization, which the source catches). -/
structure RTCDataChannel where
  readyState : String
  sendOk : Bool
  deriving DecidableEq, Repr

/-- The fallible body of the `try` block: serialize and hand the payload to
the channel, or throw. -/
def channelSend (ch : RTCDataChannel) (_payload : String) : Except String Unit :=
  if ch.sendOk then .ok () else .error "send threw"

/-- `WebRTCClient.sendMessage`: false when the channel is absent or not open;
otherwise attempt the send inside a try/catch, returning true exactly on
success.  Total (never throws) by construction. -/
def sendMessage (dataChannels : List (String × RTCDataChannel))
    (peerId payload : String) : Bool :=
  match dataChannels.lookup peerId with
  | none => false
  | some ch =>
    if ch.readyState ≠ "open" then false
    else
      match channelSend ch payload with
      | .ok _ => true
      | .error _ => false

/-! ## Concrete inputs used by scenarios, counterexamples and witnesses -/

/-- Causal chain, empty clocks: `chainM2` depends on `chainM1`. -/
def chainM1 : SyncMessage := ⟨"m1", "A", "r", "first", 0, [], []⟩

/-- Second link of the causal chain. -/
def chainM2 : SyncMessage := ⟨"m2", "A", "r", "second", 1, [], ["m1"]⟩

/-- Third link of the causal chain: depends on `chainM2`. -/
def chainM3 : SyncMessage := ⟨"m3", "A", "r", "third", 2, [], ["m2"]⟩

/-- The spec scenario's `m1`: authored by A with clock `{A:1}`, no
dependencies. -/
def opsM1 : SyncMessage := ⟨"A_1", "A", "ops", "hello", 10, [("A", 1)], []⟩

/-- The spec scenario's `m2`: clock `{A:2}`, depending on `opsM1`. -/
def opsM2 : SyncMessage := ⟨"A_2", "A", "ops", "world", 20, [("A", 2)], ["A_1"]⟩

/-- A history holding A's messages 1..5 and B's messages 1..2 (each message's
own clock entry for its author is its sequence number). -/
def gossipHistory : List SyncMessage :=
  [⟨"A_1", "A", "r", "", 1, [("A", 1)], []⟩,
   ⟨"A_2", "A", "r", "", 2, [("A", 2)], []⟩,
   ⟨"A_3", "A", "r", "", 3, [("A", 3)], []⟩,
   ⟨"A_4", "A", "r", "", 4, [("A", 4)], []⟩,
   ⟨"A_5", "A", "r", "", 5, [("A", 5)], []⟩,
   ⟨"B_1", "B", "r", "", 6, [("A", 5), ("B", 1)], []⟩,
   ⟨"B_2", "B", "r", "", 7, [("A", 5), ("B", 2)], []⟩]

/-- A history message sharing author `A` with `sameFromNew`. -/
def sameFromOld : SyncMessage := ⟨"x", "A", "r", "", 0, [], []⟩

/-- A delivered message in the same room and window as `sameFromOld`, from
the same author. -/
def sameFromNew : SyncMessage := ⟨"y", "A", "r", "", 1, [], []⟩

/-- A peer registered on socket `s1` into room `general`. -/
def regPeer1 : Peer := ⟨"p1", "s1", "ip", ["general"], 0, "nick", "pk"⟩

/-- Register `regPeer1`, have it join room `r2` through its socket, then
unregister it. -/
def regTrace : Registry :=
  unregisterPeer (joinRoom (registerPeer Registry.empty regPeer1) "s1" "r2") "p1"

/-- The registry holding just `regPeer1`. -/
def regOne : Registry := registerPeer Registry.empty regPeer1

/-- A signal addressed to `regPeer1`, stamped 5 by its sender. -/
def sigTo1 : WebRTCSignal := ⟨"p2", "p1", "offer", "sdp", 5⟩

/-! ## Deliverability conditions, stated as the specification words them -/

/-- Condition (1): every id in the message's causal-dependency set is already
in history. -/
def depsSatisfied (s : Engine) (m : SyncMessage) : Prop :=
  ∀ causalId ∈ m.causality, hasId s.messageHistory causalId = true

/-- Condition (2): the clock entry the message carries for its own sender
equals the engine's known counter for that sender plus exactly one. -/
def senderStepOk (s : Engine) (m : SyncMessage) : Prop :=
  ∀ e ∈ m.vectorClock, e.1 = m.«from» → e.2 = s.vectorClock e.1 + 1

/-- Condition (3): every clock entry the message carries for a peer other
than its sender is at most the engine's known counter for that peer. -/
def othersBoundedOk (s : Engine) (m : SyncMessage) : Prop :=
  ∀ e ∈ m.vectorClock, e.1 ≠ m.«from» → e.2 ≤ s.vectorClock e.1

/-! ## Helper lemmas -/

lemma clockCheck_iff (s : Engine) (m : SyncMessage) :
    (m.vectorClock.all fun e =>
      if e.1 = m.«from» then e.2 = s.vectorClock e.1 + 1
      else e.2 ≤ s.vectorClock e.1) = true
    ↔ senderStepOk s m ∧ othersBoundedOk s m := by
  simp only [List.all_eq_true, senderStepOk, othersBoundedOk]
  constructor
  · intro h
    refine ⟨fun e he hf => ?_, fun e he hf => ?_⟩
    · have h2 := h e he
      simp only [if_pos hf, decide_eq_true_eq] at h2
      exact h2
    · have h2 := h e he
      simp only [if_neg hf, decide_eq_true_eq] at h2
      exact h2
  · rintro ⟨h1, h2⟩ e he
    by_cases hf : e.1 = m.«from»
    · simp only [if_pos hf, decide_eq_true_eq]
      exact h1 e he hf
    · simp only [if_neg hf, decide_eq_true_eq]
      exact h2 e he hf

lemma canProcessMessage_eq_true_iff (s : Engine) (m : SyncMessage) :
    canProcessMessage s m = true ↔
      depsSatisfied s m ∧ senderStepOk s m ∧ othersBoundedOk s m := by
  rw [canProcessMessage, Bool.and_eq_true, clockCheck_iff]
  simp only [List.all_eq_true, depsSatisfied, and_assoc]

lemma mem_mapSet_self (l : List SyncMessage) (m : SyncMessage) : m ∈ mapSet l m := by
  induction l with
  | nil => simp [mapSet]
  | cons x rest ih =>
    by_cases h : x.id = m.id
    · simp [mapSet, h]
    · simp only [mapSet, if_neg h]
      exact List.mem_cons_of_mem x ih

lemma receiveStep_delivered_of_can (s : Engine) (m : SyncMessage)
    (h : canProcessMessage s m = true) :
    (receiveStep s m).delivered = s.delivered ++ [m] := by
  simp [receiveStep, h, processMessage]

lemma receiveStep_not_can (s : Engine) (m : SyncMessage)
    (h : canProcessMessage s m = false) :
    (receiveStep s m).delivered = s.delivered ∧
      m ∈ (receiveStep s m).pendingMessages := by
  simp [receiveStep, h, mem_mapSet_self]

lemma updateVectorClock_apply_of_absent (clock : String → Nat)
    (rc : List (String × Nat)) (q : String) (h : ∀ e ∈ rc, e.1 ≠ q) :
    updateVectorClock clock rc q = clock q := by
  induction rc generalizing clock with
  | nil => rfl
  | cons e rest ih =>
    have h1 : e.1 ≠ q := h e (List.mem_cons_self e rest)
    have hstep : updateVectorClock clock (e :: rest) =
        updateVectorClock (fun r => if r = e.1 then max (clock r) e.2 else clock r) rest := rfl
    rw [hstep, ih _ (fun x hx => h x (List.mem_cons_of_mem e hx))]
    exact if_neg fun hq => h1 hq.symm

/-! ## Claim theorems -/

/-- C4 counterexample: `sameFromOld` satisfies every condition the claim
lists — same room as the delivered `sameFromNew`, different id, timestamps 1
ms apart, not mutually causally related, and in history — yet
`detectConflicts` does not flag it, because the code additionally requires a
different author. -/
theorem C4_same_sender_not_flagged :
    sameFromOld.room = sameFromNew.room ∧
    sameFromOld.id ≠ sameFromNew.id ∧
    (sameFromOld.timestamp - sameFromNew.timestamp).natAbs < 1000 ∧
    isCausallyRelated sameFromNew sameFromOld = false ∧
    sameFromOld ∈ [sameFromOld] ∧
    detectConflicts [sameFromOld] sameFromNew = [] := by
  decide

/-- C4 (amended): conflict detection flags as concurrent with `m` exactly
those history messages in the same room, with a different id, **from a
different sender**, whose timestamps differ from m's by less than 1000 ms and
which are not mutually causally related. -/
theorem C4_detectConflicts_characterization (h : List SyncMessage) (m hm : SyncMessage) :
    hm ∈ detectConflicts h m ↔
      hm ∈ h ∧ hm.room = m.room ∧ hm.id ≠ m.id ∧
      (hm.timestamp - m.timestamp).natAbs < 1000 ∧
      hm.«from» ≠ m.«from» ∧
      isCausallyRelated m hm = false := by
  simp only [detectConflicts, List.mem_filter, Bool.and_eq_true, decide_eq_true_eq,
    Bool.not_eq_true', ne_eq]
  tauto

/-- C5: `handleSyncRequest` returns at most 100 entries; when at most 100
entries qualify it returns exactly the history entries whose author-entry
exceeds the requester's counter for that author (absent entries read as 0);
every returned entry is a qualifying history entry; and against a history
holding A:1..5 and B:1..2, the request clock `{A:3, B:1}` returns exactly
`{A:4, A:5, B:2}`. -/
theorem C5_handleSyncRequest_exact :
    (∀ (peerClock : List (String × Nat)) (h : List SyncMessage),
      (handleSyncRequest peerClock h).length ≤ 100 ∧
      ((h.filter (wantsMessage peerClock)).length ≤ 100 →
        handleSyncRequest peerClock h = h.filter (wantsMessage peerClock)) ∧
      (∀ m ∈ handleSyncRequest peerClock h,
        m ∈ h ∧ clockEntry peerClock m.«from» < clockEntry m.vectorClock m.«from»)) ∧
    (handleSyncRequest [("A", 3), ("B", 1)] gossipHistory).map (fun m => m.id) =
      ["A_4", "A_5", "B_2"] := by
  refine ⟨fun peerClock h => ⟨?_, ?_, ?_⟩, by decide⟩
  · simp only [handleSyncRequest, List.length_take]
    exact Nat.min_le_left 100 (h.filter (wantsMessage peerClock)).length
  · intro hle
    simpa [handleSyncRequest] using List.take_of_length_le hle
  · intro m hm
    have hmem : m ∈ h.filter (wantsMessage peerClock) :=
      List.mem_of_mem_take (by simpa [handleSyncRequest] using hm)
    have := List.mem_filter.mp hmem
    exact ⟨this.1, by simpa [wantsMessage, decide_eq_true_eq] using this.2⟩

/-- C5 witness: the theorem applied to the spec's gossip scenario. -/
theorem C5_handleSyncRequest_witness :
    (gossipHistory.filter (wantsMessage [("A", 3), ("B", 1)])).length ≤ 100 ∧
    handleSyncRequest [("A", 3), ("B", 1)] gossipHistory =
      gossipHistory.filter (wantsMessage [("A", 3), ("B", 1)]) :=
  ⟨by decide,
    (C5_handleSyncRequest_exact.1 [("A", 3), ("B", 1)] gossipHistory).2.1 (by decide)⟩

/-- C6 (code bug): registering `regPeer1` into `general`, joining `r2`
through the `join_room` handler, then unregistering it leaves the stale id
`p1` in `r2`'s member set even though `p1` is no longer registered — the
handler never records the joined room in the stored peer record, and
`unregisterPeer` removes only the rooms recorded there.  This violates the
member-set ⊆ registered-peers invariant the claim states. -/
theorem C6_unregister_leaves_stale_member :
    roomMembers regTrace "r2" = ["p1"] ∧
    getPeer regTrace "p1" = none ∧
    roomMembers regTrace "general" = [] := by
  decide

/-- C7 counterexample: the `peer_discover` handler answers with the full
member snapshot — the calling peer itself included — and never consults the
caller's identity, contradicting the claimed caller exclusion. -/
theorem C7_discover_includes_caller :
    getPeerBySocket regOne "s1" = some regPeer1 ∧
    regPeer1.id ∈ roomMembers regOne "general" ∧
    peerDiscover regOne "general" = [regPeer1] := by
  decide

/-- C7 (amended): `peer_discover` returns the room's current member snapshot
resolved through the registry, with no caller exclusion: a peer record is in
the reply exactly when some member id of the room resolves to it. -/
theorem C7_discover_snapshot (r : Registry) (roomId : String) (p : Peer) :
    p ∈ peerDiscover r roomId ↔
      ∃ pid ∈ roomMembers r roomId, getPeer r pid = some p := by
  simp [peerDiscover, getPeersInRoom, List.mem_filterMap]

/-- C8 counterexample: relaying `sigTo1` (sender timestamp 5) at relay time 7
to the registered peer `p1` emits a signal whose `timestamp` field was
rewritten to 7, so the signal is not forwarded verbatim. -/
theorem C8_signal_timestamp_rewritten :
    getPeer regOne "p1" = some regPeer1 ∧
    (webrtcSignal regOne sigTo1 7).2 = some ("s1", ⟨"p2", "p1", "offer", "sdp", 7⟩) ∧
    (⟨"p2", "p1", "offer", "sdp", 7⟩ : WebRTCSignal) ≠ sigTo1 := by
  decide

/-- C8 (amended): if the addressed peer is registered the signal is forwarded
to that peer's bound socket with `from`, `to`, `type` and `data` unchanged
but `timestamp` replaced by the relay's current time; if it is not
registered, nothing is emitted; the registry is unchanged in both cases. -/
theorem C8_relay_amended (r : Registry) (sig : WebRTCSignal) (now : Int) :
    (webrtcSignal r sig now).1 = r ∧
    (∀ target, getPeer r sig.«to» = some target →
      (webrtcSignal r sig now).2 =
        some (target.socketId, ⟨sig.«from», sig.«to», sig.type, sig.data, now⟩)) ∧
    (getPeer r sig.«to» = none → (webrtcSignal r sig now).2 = none) := by
  refine ⟨?_, ?_, ?_⟩ <;> cases hl : getPeer r sig.«to» <;>
    simp_all [webrtcSignal]

/-- C8 witness: the amended theorem applied to `sigTo1` against `regOne`. -/
theorem C8_relay_amended_witness :
    getPeer regOne (sigTo1.«to») = some regPeer1 ∧
    (webrtcSignal regOne sigTo1 7).2 = some ("s1", ⟨"p2", "p1", "offer", "sdp", 7⟩) :=
  ⟨by decide, (C8_relay_amended regOne sigTo1 7).2.1 regPeer1 (by decide)⟩

/-- C9: `sendMessage` returns false when the data channel for the peer is
absent or not in the `open` state (and, being a total Boolean function, never
throws); it returns true only when the channel was open and the payload was
handed to it successfully. -/
theorem C9_send_guard (dataChannels : List (String × RTCDataChannel))
    (peerId payload : String) :
    (dataChannels.lookup peerId = none → sendMessage dataChannels peerId payload = false) ∧
    (∀ ch, dataChannels.lookup peerId = some ch → ch.readyState ≠ "open" →
      sendMessage dataChannels peerId payload = false) ∧
    (sendMessage dataChannels peerId payload = true →
      ∃ ch, dataChannels.lookup peerId = some ch ∧ ch.readyState = "open" ∧
        channelSend ch payload = .ok ()) := by
  refine ⟨?_, ?_, ?_⟩
  · intro hnone
    simp [sendMessage, hnone]
  · intro ch hch hstate
    simp [sendMessage, hch, hstate]
  · intro htrue
    match hl : dataChannels.lookup peerId with
    | none => simp [sendMessage, hl] at htrue
    | some ch =>
      refine ⟨ch, rfl, ?_⟩
      by_cases hst : ch.readyState = "open"
      · cases hsend : channelSend ch payload with
        | ok u => exact ⟨hst, rfl⟩
        | error e => simp [sendMessage, hl, hst, hsend] at htrue
      · simp [sendMessage, hl, hst] at htrue

/-- C9 witness: a closed channel and an absent channel both yield false. -/
theorem C9_send_guard_witness :
    sendMessage [("p", ⟨"connecting", true⟩)] "p" "x" = false ∧
    sendMessage [("p", ⟨"connecting", true⟩)] "q" "x" = false :=
  ⟨(C9_send_guard [("p", ⟨"connecting", true⟩)] "p" "x").2.1
      ⟨"connecting", true⟩ (by decide) (by decide),
    (C9_send_guard [("p", ⟨"connecting", true⟩)] "q" "x").1 (by decide)⟩

/-- C2: for a message not already in history, `receiveMessage` delivers it
immediately (before the pending scan) exactly when all three deliverability
conditions hold — dependencies in history, sender entry equal to the known
counter plus one, other carried entries bounded by the known counters —
and otherwise it is put into the pending buffer with nothing delivered at
that point.  In the spec's reorder scenario, peer B receiving `opsM2` before
`opsM1` buffers `opsM2`, then delivers `[opsM1, opsM2]` on receipt of
`opsM1`. -/
theorem C2_deliverability_test :
    (∀ (s : Engine) (m : SyncMessage), hasId s.messageHistory m.id = false →
      (canProcessMessage s m = true ↔
        depsSatisfied s m ∧ senderStepOk s m ∧ othersBoundedOk s m) ∧
      receiveMessage s m = processPendingMessages (receiveStep s m) ∧
      (canProcessMessage s m = true →
        (receiveStep s m).delivered = s.delivered ++ [m]) ∧
      (canProcessMessage s m = false →
        (receiveStep s m).delivered = s.delivered ∧
        m ∈ (receiveStep s m).pendingMessages)) ∧
    (feed (Engine.init "B") [opsM2]).delivered = [] ∧
    opsM2 ∈ (feed (Engine.init "B") [opsM2]).pendingMessages ∧
    (feed (Engine.init "B") [opsM2, opsM1]).delivered = [opsM1, opsM2] ∧
    (feed (Engine.init "B") [opsM2, opsM1]).pendingMessages = [] := by
  refine ⟨fun s m hdup =>
    ⟨canProcessMessage_eq_true_iff s m, ?_, receiveStep_delivered_of_can s m,
      receiveStep_not_can s m⟩, by decide, by decide, by decide, by decide⟩
  simp [receiveMessage, hdup]

/-- C2 witness: the theorem applied to peer B receiving `opsM2` first. -/
theorem C2_deliverability_witness :
    hasId (Engine.init "B").messageHistory opsM2.id = false ∧
    canProcessMessage (Engine.init "B") opsM2 = false ∧
    (receiveStep (Engine.init "B") opsM2).delivered = [] ∧
    opsM2 ∈ (receiveStep (Engine.init "B") opsM2).pendingMessages := by
  refine ⟨by decide, by decide, ?_, ?_⟩
  · exact ((C2_deliverability_test.1 (Engine.init "B") opsM2 (by decide)).2.2.2
      (by decide)).1
  · exact ((C2_deliverability_test.1 (Engine.init "B") opsM2 (by decide)).2.2.2
      (by decide)).2

/-- C10: for a message carrying no clock entry for its own sender, the
sender's plus-exactly-one check is vacuous, so the deliverability test
reduces to the dependency check plus the bound on every carried entry; and
processing the message leaves the engine's counter for the sender unchanged,
since the max-merge only touches carried entries. -/
theorem C10_absent_sender_entry (s : Engine) (m : SyncMessage)
    (habs : ∀ e ∈ m.vectorClock, e.1 ≠ m.«from») :
    (canProcessMessage s m = true ↔
      depsSatisfied s m ∧ ∀ e ∈ m.vectorClock, e.2 ≤ s.vectorClock e.1) ∧
    (processMessage s m).vectorClock m.«from» = s.vectorClock m.«from» ∧
    (canProcessMessage s m = true →
      (receiveStep s m).delivered = s.delivered ++ [m]) := by
  refine ⟨?_, ?_, receiveStep_delivered_of_can s m⟩
  · rw [canProcessMessage_eq_true_iff]
    constructor
    · rintro ⟨h1, _, h3⟩
      exact ⟨h1, fun e he => h3 e he (habs e he)⟩
    · rintro ⟨h1, h2⟩
      exact ⟨h1, fun e he hf => absurd hf (habs e he), fun e he _ => h2 e he⟩
  · exact updateVectorClock_apply_of_absent s.vectorClock m.vectorClock m.«from»
      fun e he => habs e he

/-- C10 witness: the theorem applied to `chainM1`, whose clock object is
empty. -/
theorem C10_absent_sender_entry_witness :
    (∀ e ∈ chainM1.vectorClock, e.1 ≠ chainM1.«from») ∧
    (processMessage (Engine.init "B") chainM1).vectorClock chainM1.«from» =
      (Engine.init "B").vectorClock chainM1.«from» ∧
    (receiveStep (Engine.init "B") chainM1).delivered = [chainM1] :=
  ⟨by decide,
    (C10_absent_sender_entry (Engine.init "B") chainM1 (by decide)).2.1,
    (C10_absent_sender_entry (Engine.init "B") chainM1 (by decide)).2.2 (by decide)⟩

lemma sorted_perm_eq_of_nodup_ids :
    ∀ {l1 l2 : List SyncMessage}, l1.Perm l2 → l1.Sorted idLe → l2.Sorted idLe →
      (l1.map fun m => m.id).Nodup → l1 = l2 := by
  intro l1
  induction l1 with
  | nil =>
    intro l2 hp _ _ _
    exact hp.nil_eq
  | cons a t1 ih =>
    intro l2 hp hs1 hs2 hnd
    cases l2 with
    | nil => exact absurd hp.symm.nil_eq (by simp)
    | cons b t2 =>
      have hab : a = b := by
        have ha2 : a ∈ b :: t2 := hp.mem_iff.mp (List.mem_cons_self a t1)
        have hb1 : b ∈ a :: t1 := hp.mem_iff.mpr (List.mem_cons_self b t2)
        have hba : idLe b a := by
          rcases List.mem_cons.mp ha2 with h | h
          · exact le_of_eq (congrArg (fun m => m.id) h.symm)
          · exact (List.sorted_cons.mp hs2).1 a h
        have hab2 : idLe a b := by
          rcases List.mem_cons.mp hb1 with h | h
          · exact le_of_eq (congrArg (fun m => m.id) h.symm)
          · exact (List.sorted_cons.mp hs1).1 b h
        exact List.inj_on_of_nodup_map hnd (List.mem_cons_self a t1) hb1
          (le_antisymm hab2 hba)
      subst hab
      have hp2 : t1.Perm t2 := hp.cons_inv
      have := ih hp2 (List.sorted_cons.mp hs1).2 (List.sorted_cons.mp hs2).2
        (by simpa using (List.nodup_cons.mp (by simpa using hnd)).2)
      rw [this]

/-- C3: for any two arrival permutations of a set of concurrent messages with
distinct ids, `resolveConflicts` produces the identical resolved order; the
result is sorted by id and is a permutation of the input batch. -/
theorem C3_resolution_deterministic (l1 l2 : List SyncMessage)
    (hperm : l1.Perm l2) (hids : (l1.map fun m => m.id).Nodup) :
    resolveConflicts l1 = resolveConflicts l2 ∧
    (resolveConflicts l1).Sorted idLe ∧
    (resolveConflicts l1).Perm l1 := by
  have hs1 : (resolveConflicts l1).Sorted idLe := List.sorted_insertionSort idLe l1
  have hs2 : (resolveConflicts l2).Sorted idLe := List.sorted_insertionSort idLe l2
  have hp1 : (resolveConflicts l1).Perm l1 := List.perm_insertionSort idLe l1
  have hp2 : (resolveConflicts l2).Perm l2 := List.perm_insertionSort idLe l2
  have hperm2 : (resolveConflicts l1).Perm (resolveConflicts l2) :=
    hp1.trans (hperm.trans hp2.symm)
  have hnodup : ((resolveConflicts l1).map fun m => m.id).Nodup :=
    ((hp1.map fun m => m.id).nodup_iff).mpr hids
  exact ⟨sorted_perm_eq_of_nodup_ids hperm2 hs1 hs2 hnodup, hs1, hp1⟩

/-- C3 witness: the two arrival orders of the concurrent pair `opsM1`,
`opsM2` resolve identically. -/
theorem C3_resolution_deterministic_witness :
    ([opsM2, opsM1] : List SyncMessage).Perm [opsM1, opsM2] ∧
    resolveConflicts [opsM2, opsM1] = resolveConflicts [opsM1, opsM2] :=
  ⟨by decide,
    (C3_resolution_deterministic [opsM2, opsM1] [opsM1, opsM2] (by decide) (by decide)).1⟩

/-! ## C1: the pending scan is a single in-order pass, not a fixed-point loop -/

/-- The amended specification of the pending scan: one in-order pass over the
buffer, delivering each entry exactly when it is deliverable given the
deliveries made earlier in the same pass, and returning the remaining
entries positionally. -/
def onePass (s : Engine) : List SyncMessage → Engine × List SyncMessage
  | [] => (s, [])
  | m :: rest =>
    if canProcessMessage s m then
      onePass (processMessage s m) rest
    else
      let r := onePass s rest
      (r.1, m :: r.2)

/-- The amended specification of `processPendingMessages`: run `onePass` on
the pending buffer and keep the positional remainder as the new buffer. -/
def onePassEngine (s : Engine) : Engine :=
  let r := onePass s s.pendingMessages
  { r.1 with pendingMessages := r.2 }

lemma loop_cons_pos (s : Engine) (m : SyncMessage) (rest : List SyncMessage)
    (acc : List String) (h : canProcessMessage s m = true) :
    processPendingLoop s (m :: rest) acc =
      processPendingLoop (processMessage s m) rest (acc ++ [m.id]) := by
  simp [processPendingLoop, h]

lemma loop_cons_neg (s : Engine) (m : SyncMessage) (rest : List SyncMessage)
    (acc : List String) (h : canProcessMessage s m = false) :
    processPendingLoop s (m :: rest) acc = processPendingLoop s rest acc := by
  simp [processPendingLoop, h]

lemma onePass_cons_pos (s : Engine) (m : SyncMessage) (rest : List SyncMessage)
    (h : canProcessMessage s m = true) :
    onePass s (m :: rest) = onePass (processMessage s m) rest := by
  simp [onePass, h]

lemma onePass_cons_neg (s : Engine) (m : SyncMessage) (rest : List SyncMessage)
    (h : canProcessMessage s m = false) :
    onePass s (m :: rest) = ((onePass s rest).1, m :: (onePass s rest).2) := by
  simp [onePass, h]

lemma loop_state_eq (snapshot : List SyncMessage) :
    ∀ (s : Engine) (acc : List String),
      (processPendingLoop s snapshot acc).1 = (onePass s snapshot).1 := by
  induction snapshot with
  | nil => intro s acc; rfl
  | cons m rest ih =>
    intro s acc
    by_cases h : canProcessMessage s m = true
    · rw [loop_cons_pos s m rest acc h, onePass_cons_pos s m rest h]
      exact ih (processMessage s m) (acc ++ [m.id])
    · have hf : canProcessMessage s m = false := by simpa using h
      rw [loop_cons_neg s m rest acc hf, onePass_cons_neg s m rest hf]
      exact ih s acc

lemma loop_pending_eq (snapshot : List SyncMessage) :
    ∀ (s : Engine) (acc : List String),
      (processPendingLoop s snapshot acc).1.pendingMessages = s.pendingMessages := by
  induction snapshot with
  | nil => intro s acc; rfl
  | cons m rest ih =>
    intro s acc
    by_cases h : canProcessMessage s m = true
    · rw [loop_cons_pos s m rest acc h]
      exact ih (processMessage s m) (acc ++ [m.id])
    · have hf : canProcessMessage s m = false := by simpa using h
      rw [loop_cons_neg s m rest acc hf]
      exact ih s acc

lemma loop_acc_eq (snapshot : List SyncMessage) :
    ∀ (s : Engine) (acc : List String),
      (processPendingLoop s snapshot acc).2 =
        acc ++ (processPendingLoop s snapshot []).2 := by
  induction snapshot with
  | nil => intro s acc; simp [processPendingLoop]
  | cons m rest ih =>
    intro s acc
    by_cases h : canProcessMessage s m = true
    · rw [loop_cons_pos s m rest acc h, loop_cons_pos s m rest [] h,
        ih (processMessage s m) (acc ++ [m.id]),
        ih (processMessage s m) ([] ++ [m.id])]
      simp
    · have hf : canProcessMessage s m = false := by simpa using h
      rw [loop_cons_neg s m rest acc hf, loop_cons_neg s m rest [] hf]
      exact ih s acc

lemma loop_processed_subset (snapshot : List SyncMessage) :
    ∀ (s : Engine) (x : String), x ∈ (processPendingLoop s snapshot []).2 →
      x ∈ snapshot.map fun m => m.id := by
  induction snapshot with
  | nil => intro s x hx; simp [processPendingLoop] at hx
  | cons m rest ih =>
    intro s x hx
    by_cases h : canProcessMessage s m = true
    · rw [loop_cons_pos s m rest [] h,
        loop_acc_eq rest (processMessage s m) ([] ++ [m.id])] at hx
      simp only [List.nil_append] at hx
      rcases List.mem_append.mp hx with h1 | h1
      · simp only [List.mem_singleton] at h1
        simp [h1]
      · exact List.mem_cons_of_mem _ (ih (processMessage s m) x h1)
    · have hf : canProcessMessage s m = false := by simpa using h
      rw [loop_cons_neg s m rest [] hf] at hx
      exact List.mem_cons_of_mem _ (ih s x hx)

lemma filter_processed_eq (snapshot : List SyncMessage) :
    ∀ (s : Engine), ((snapshot.map fun m => m.id).Nodup) →
      (snapshot.filter fun m => !(processPendingLoop s snapshot []).2.contains m.id) =
        (onePass s snapshot).2 := by
  induction snapshot with
  | nil => intro s _; rfl
  | cons m rest ih =>
    intro s hnd
    have hnd2 : (rest.map fun x => x.id).Nodup := (List.nodup_cons.mp hnd).2
    have hm : m.id ∉ rest.map fun x => x.id := (List.nodup_cons.mp hnd).1
    by_cases h : canProcessMessage s m = true
    · rw [loop_cons_pos s m rest [] h, onePass_cons_pos s m rest h,
        loop_acc_eq rest (processMessage s m) ([] ++ [m.id])]
      simp only [List.nil_append]
      rw [List.filter_cons]
      have hhead :
          (!([m.id] ++ (processPendingLoop (processMessage s m) rest []).2).contains m.id)
            = false := by
        simp
      rw [hhead]
      simp only [Bool.false_eq_true, if_false]
      have hcongr :
          (rest.filter fun x =>
            !([m.id] ++ (processPendingLoop (processMessage s m) rest []).2).contains x.id) =
          rest.filter fun x =>
            !(processPendingLoop (processMessage s m) rest []).2.contains x.id := by
        refine List.filter_congr fun x hx => ?_
        have hne : x.id ≠ m.id := by
          intro heq
          exact hm (heq ▸ List.mem_map_of_mem (fun y => y.id) hx)
        simp [hne]
      rw [hcongr]
      exact ih (processMessage s m) hnd2
    · have hf : canProcessMessage s m = false := by simpa using h
      rw [loop_cons_neg s m rest [] hf, onePass_cons_neg s m rest hf]
      rw [List.filter_cons]
      have hmnot : m.id ∉ (processPendingLoop s rest []).2 := by
        intro hmem
        exact hm (loop_processed_subset rest s m.id hmem)
      have hhead : (!(processPendingLoop s rest []).2.contains m.id) = true := by
        simpa using hmnot
      rw [hhead]
      simp only [if_true]
      rw [ih s hnd2]

lemma processPendingMessages_eq_onePass (s : Engine)
    (h : (s.pendingMessages.map fun m => m.id).Nodup) :
    processPendingMessages s = onePassEngine s := by
  have h1 := loop_state_eq s.pendingMessages s []
  have h3 := loop_pending_eq s.pendingMessages s []
  have h6 := filter_processed_eq s.pendingMessages s h
  simp only [processPendingMessages, onePassEngine]
  rw [h3, h6, h1]

/-- C1 (amended): after the dedup-and-branch step, `receiveMessage` performs
a single in-order pass over the pending buffer in which each entry is
delivered exactly when it is deliverable given the earlier deliveries of the
same pass; entries whose dependencies complete only at a later scan position
stay pending until a later call, so the fixed-point re-scan the claim
describes does not happen. -/
theorem C1_single_pass (s : Engine) (m : SyncMessage)
    (hdup : hasId s.messageHistory m.id = false)
    (hnodup : ((receiveStep s m).pendingMessages.map fun x => x.id).Nodup) :
    receiveMessage s m = onePassEngine (receiveStep s m) := by
  rw [receiveMessage, if_neg (by simp [hdup])]
  exact processPendingMessages_eq_onePass (receiveStep s m) hnodup

/-- The engine state of peer B after receiving `chainM3` then `chainM2`, both
still pending. -/
def pendingTwoState : Engine := feed (Engine.init "B") [chainM3, chainM2]

/-- C1 witness: the amended theorem applied to the arrival of `chainM1` while
`chainM3` and `chainM2` are pending. -/
theorem C1_single_pass_witness :
    hasId pendingTwoState.messageHistory chainM1.id = false ∧
    ((receiveStep pendingTwoState chainM1).pendingMessages.map fun x => x.id).Nodup ∧
    receiveMessage pendingTwoState chainM1 = onePassEngine (receiveStep pendingTwoState chainM1) :=
  ⟨by decide, by decide, C1_single_pass pendingTwoState chainM1 (by decide) (by decide)⟩

/-- C1 counterexample: feeding the permutation `[chainM3, chainM2, chainM1]`
of the causal chain delivers only `[chainM1, chainM2]` and leaves `chainM3`
pending — even though `chainM3` is deliverable in the final state — while
in-order feeding delivers all three.  The delivered set therefore does not
converge under permutation within the call that completes the dependencies,
refuting the claimed fixed-point re-scan. -/
theorem C1_fixed_point_fails :
    ([chainM3, chainM2, chainM1] : List SyncMessage).Perm [chainM1, chainM2, chainM3] ∧
    (feed (Engine.init "B") [chainM1, chainM2, chainM3]).delivered =
      [chainM1, chainM2, chainM3] ∧
    (feed (Engine.init "B") [chainM3, chainM2, chainM1]).delivered =
      [chainM1, chainM2] ∧
    (feed (Engine.init "B") [chainM3, chainM2, chainM1]).pendingMessages = [chainM3] ∧
    canProcessMessage (feed (Engine.init "B") [chainM3, chainM2, chainM1]) chainM3 = true := by
  decide

end ChatP2P
